import Mathlib

/-!
# Verification of the turing-screen core against its specification

Shallow embedding of the Rust sources of the `turing-screen` crate:
geometry (`src/geometry.rs`), image compositing (`src/image.rs`), the
measurement scheduler (`src/scheduler.rs`) and the rev-A device protocol
driver (`src/screen_rev_a.rs`).

Machine integers (`usize`, `u8`, `u16`) are embedded as `Nat`.  Where the
Rust code can underflow a `usize` subtraction we model the release-mode
wrapping semantics explicitly (`wsub`, reduction modulo `2 ^ 64`); where a
slice index or a slice range can be out of bounds — a panic in every Rust
build mode — the embedded operation returns `Option`, with `none` standing
for the panic.  `u8` values are plain `Nat`s constrained by `< 256`
hypotheses where a theorem needs them (the Rust type system guarantees the
bound at every call site).

The file is organised as definitions first, theorems second.
-/

set_option maxRecDepth 8000

namespace TuringScreen

/-- `2 ^ 64`, the modulus of `usize` arithmetic on the target platform. -/
def USIZE : Nat := 2 ^ 64

/-- Rust release-mode (wrapping) subtraction on `usize`, for arguments
below `2 ^ 64`. -/
def wsub (a b : Nat) : Nat := (a + USIZE - b) % USIZE

/-! ## Geometry (`src/geometry.rs`) -/

/-- `Rect { x, y, w, h }`: rectangle with unsigned pixel coordinates. -/
structure Rect where
  x : Nat
  y : Nat
  w : Nat
  h : Nat
deriving DecidableEq, Repr

/-- `Rect::clip`: clip a rectangle against bounds `width × height`.
If the origin is out of bounds the result keeps the origin and has zero
width and height; otherwise the width and height are reduced so the
rectangle fits.  In the second branch `self.x < width` and
`self.y < height`, so the `usize` subtractions cannot underflow and plain
truncated subtraction is exact. -/
def Rect.clip (r : Rect) (width height : Nat) : Rect :=
  if width ≤ r.x ∨ height ≤ r.y then
    ⟨r.x, r.y, 0, 0⟩
  else
    ⟨r.x, r.y, min r.w (width - r.x), min r.h (height - r.y)⟩

/-- `Coord { x, y }`: destination offset. -/
structure Coord where
  x : Nat
  y : Nat
deriving DecidableEq, Repr

/-! ## Pixels (`src/colors.rs`, `rgb::RGBA<u8>`) -/

/-- An RGBA pixel; each channel is a `u8` in the program. -/
structure Rgba where
  r : Nat
  g : Nat
  b : Nat
  a : Nat
deriving DecidableEq, Repr

/-- The `colors::BLACK` constant: opaque black. -/
def BLACK : Rgba := ⟨0, 0, 0, 255⟩

/-! ## Images (`src/image.rs`)

The pixel buffer is a `List Rgba` of length `width * height`.  Rust slice
indexing and `copy_from_slice` panic when out of range; the embedded
operations return `none` in exactly those cases. -/

/-- `Image { width, height, buffer }`. -/
structure Image where
  width : Nat
  height : Nat
  buffer : List Rgba
deriving DecidableEq, Repr

/-- The `Image` invariant established by `Image::new`: the buffer holds
`width * height` pixels. -/
def Image.wf (img : Image) : Prop := img.buffer.length = img.width * img.height

/-- `Image::new(width, height)`: an opaque black image. -/
def Image.mk_new (width height : Nat) : Image :=
  ⟨width, height, List.replicate (width * height) BLACK⟩

/-- `Image::full`: the whole-image rectangle. -/
def Image.full (img : Image) : Rect := ⟨0, 0, img.width, img.height⟩

/-- `Image::blend_alpha`: alpha-blend foreground `fg` over background
`bg`.  Fast paths for `fg.a = 0` (background untouched) and
`fg.a = 0xff` (foreground copied whole, its alpha included); otherwise
each colour channel is `(bg*(255-a) + fg*a) >> 8` computed in `u16`,
which never overflows because `bg, fg < 256` and `(255-a) + a = 255`.
The background alpha channel is left unchanged. -/
def blend_alpha (bg fg : Rgba) : Rgba :=
  if fg.a = 0x00 then bg
  else if fg.a = 0xff then fg
  else
    let a := fg.a
    let ac := 0xff - a
    { r := (bg.r * ac + fg.r * a) / 256
      g := (bg.g * ac + fg.g * a) / 256
      b := (bg.b * ac + fg.b * a) / 256
      a := bg.a }

/-- `dst[offset..offset+w].copy_from_slice(&src[srcOffset..srcOffset+w])`:
both slice ranges are bounds-checked (a Rust panic is `none`). -/
def writeSlice (dst : List Rgba) (offset : Nat) (src : List Rgba)
    (srcOffset w : Nat) : Option (List Rgba) :=
  if offset + w ≤ dst.length ∧ srcOffset + w ≤ src.length then
    some (dst.take offset ++ (src.drop srcOffset).take w ++ dst.drop (offset + w))
  else
    none

/-- Row loop of `Image::copy_image`: for each of `cnt` remaining rows
(current row index `y`), copy `crop.w` pixels from the source row to the
destination row.  Offsets as in the source:
`offset = (dest.y + y) * self.width + crop.x + dest.x` and
`src_offset = (crop.y + y) * image.width + crop.x`. -/
def copyRows (selfW : Nat) (image : Image) (crop : Rect) (dest : Coord)
    (buf : List Rgba) (y cnt : Nat) : Option (List Rgba) :=
  match cnt with
  | 0 => some buf
  | Nat.succ cnt =>
    match writeSlice buf ((dest.y + y) * selfW + crop.x + dest.x) image.buffer
        ((crop.y + y) * image.width + crop.x) crop.w with
    | none => none
    | some buf2 => copyRows selfW image crop dest buf2 (y + 1) cnt

/-- `Image::copy_image(image, crop, dest)`: clip the crop rectangle
against `min(image.width, self.width - dest.x)` and
`min(image.height, self.height - dest.y)` (the `usize` subtractions wrap
on underflow in release mode, modelled by `wsub`), then copy row by row.
`none` models a Rust panic (out-of-range slice). -/
def Image.copy_image (self : Image) (image : Image) (crop : Rect)
    (dest : Coord) : Option Image :=
  let crop2 := crop.clip (min image.width (wsub self.width dest.x))
      (min image.height (wsub self.height dest.y))
  (copyRows self.width image crop2 dest self.buffer 0 crop2.h).map
    (fun b => { self with buffer := b })

/-- Column loop of `Image::blend_image`: for each of `cnt` remaining
columns (current column `x`), read the foreground pixel at
`src_offset + x` and, when its alpha is positive, blend it over the
destination pixel at `offset + x`. -/
def blendRow (buf : List Rgba) (offset : Nat) (srcBuf : List Rgba)
    (srcOffset : Nat) (x cnt : Nat) : Option (List Rgba) :=
  match cnt with
  | 0 => some buf
  | Nat.succ cnt =>
    match srcBuf.get? (srcOffset + x) with
    | none => none
    | some fg =>
      if 0 < fg.a then
        match buf.get? (offset + x) with
        | none => none
        | some bg =>
          blendRow (buf.set (offset + x) (blend_alpha bg fg)) offset srcBuf
            srcOffset (x + 1) cnt
      else
        blendRow buf offset srcBuf srcOffset (x + 1) cnt

/-- Row loop of `Image::blend_image`: run `blendRow` on each of `cnt`
rows, advancing the destination offset by `selfW` and the source offset
by `imgW` per row. -/
def blendRows (selfW imgW : Nat) (srcBuf : List Rgba) (buf : List Rgba)
    (offset srcOffset : Nat) (w cnt : Nat) : Option (List Rgba) :=
  match cnt with
  | 0 => some buf
  | Nat.succ cnt =>
    match blendRow buf offset srcBuf srcOffset 0 w with
    | none => none
    | some buf2 =>
      blendRows selfW imgW srcBuf buf2 (offset + selfW) (srcOffset + imgW) w cnt

/-- `Image::blend_image(image, crop, dest)`: clip as in `copy_image`,
then alpha-blend row by row starting at destination offset
`dest.y * self.width + dest.x` and source offset
`crop.y * image.width + crop.x`.  `none` models a Rust panic
(out-of-range index). -/
def Image.blend_image (self : Image) (image : Image) (crop : Rect)
    (dest : Coord) : Option Image :=
  let crop2 := crop.clip (min image.width (wsub self.width dest.x))
      (min image.height (wsub self.height dest.y))
  (blendRows self.width image.width image.buffer self.buffer
      (dest.y * self.width + dest.x) (crop2.y * image.width + crop2.x)
      crop2.w crop2.h).map
    (fun b => { self with buffer := b })

/-- A 2×2 source image fixture (the one used by the repository's
`test_copy_image` tests). -/
def srcImg2 : Image :=
  ⟨2, 2, [⟨1, 1, 1, 1⟩, ⟨2, 2, 2, 2⟩, ⟨3, 3, 3, 3⟩, ⟨4, 4, 4, 4⟩]⟩

/-! ## Scheduler (`src/scheduler.rs`)

Modelled from the spec: the `Measurements` type itself is declared in the
crate's `meter` module outside the provided sources; per the spec it is a
mapping from 64-bit `sourceId` to the last-known `f32` value with
`HashMap` semantics.  It is embedded as a duplicate-free association list
`List (Nat × Int)`; the scheduler only stores, copies and compares the
`f32` values (it never computes with them), so any value domain with a
distinguished `0` (the value the code stores on a measurement error) is a
faithful embedding.

`Instant`/`Duration` timer state is real time and is abstracted into a
per-iteration observation: for each registered task, whether its timer
expired this tick (`task.last.elapsed() >= task.period`) and, if invoked,
what `measure()` returned; plus whether the refresh period elapsed
(`last_refresh.elapsed() >= self.refresh_period`). -/

/-- The measurements snapshot: association list from meter id to value. -/
abbrev MeterMap := List (Nat × Int)

/-- The key set of a snapshot. -/
def keys (m : MeterMap) : List Nat := m.map Prod.fst

/-- Lookup of a meter id in a snapshot (`HashMap::get` semantics on a
duplicate-free association list). -/
def lookupId (m : MeterMap) (id : Nat) : Option Int :=
  match m with
  | [] => none
  | kv :: t => if kv.1 = id then some kv.2 else lookupId t id

/-- `HashMap::get_mut` followed by `*slot = val`: overwrite the value
under `id` when the key is present, otherwise change nothing. -/
def updateIfPresent (m : MeterMap) (id : Nat) (v : Int) : MeterMap :=
  match m with
  | [] => []
  | kv :: t => (if kv.1 = id then (kv.1, v) else kv) :: updateIfPresent t id v

/-- Observation of one registered task during one loop iteration:
its meter id, whether its timer expired this tick, and the outcome of
`measure()` (only consulted when the timer expired). -/
structure TaskObs where
  id : Nat
  expired : Bool
  result : Except String Int

/-- The per-task body of the scheduler loop: if the timer expired,
invoke `measure()`; on success take its value, on error log and take
`0.0`; then write the value into the snapshot under the meter's id if
that key is present. -/
def runTask (m : MeterMap) (t : TaskObs) : MeterMap :=
  if t.expired then
    let val : Int :=
      match t.result with
      | .ok v => v
      | .error _ => 0
    updateIfPresent m t.id val
  else m

/-- Phase (i) of a scheduler iteration: run every task in registration
order. -/
def collect (m : MeterMap) (obs : List TaskObs) : MeterMap :=
  obs.foldl runTask m

/-- `mpsc::SyncSender::try_send` on a bounded channel of capacity `cap`:
non-blocking; `none` is `TrySendError::Full` (the message is dropped). -/
def trySend (cap : Nat) (q : List MeterMap) (m : MeterMap) :
    Option (List MeterMap) :=
  if q.length < cap then some (q ++ [m]) else none

/-- Scheduler-side state: the owned snapshot and the channel contents
(the channel is `mpsc::sync_channel(1)` in `cmd/turing-screen/main.rs`,
so its capacity is 1). -/
structure SchedState where
  meterMap : MeterMap
  chan : List MeterMap

/-- One iteration of the `Scheduler::start` loop body: collect expired
tasks, then, when the refresh period elapsed, try to publish a copy of
the current snapshot with a non-blocking send on the capacity-1 channel;
a full channel drops the message (logged only) and the loop goes on. -/
def iteration (st : SchedState) (obs : List TaskObs) (refresh : Bool) :
    SchedState :=
  let m2 := collect st.meterMap obs
  if refresh then
    match trySend 1 st.chan m2 with
    | some q => { meterMap := m2, chan := q }
    | none => { meterMap := m2, chan := st.chan }
  else
    { meterMap := m2, chan := st.chan }

/-- The renderer (`Renderer::start`) draining one snapshot from the
channel. -/
def recvStep (st : SchedState) : SchedState :=
  { st with chan := st.chan.drop 1 }

/-- Steps of the two-thread system: a scheduler loop iteration (with any
task observations and refresh flag) or a renderer receive. -/
inductive Step : SchedState → SchedState → Prop where
  | sched (st : SchedState) (obs : List TaskObs) (refresh : Bool) :
      Step st (iteration st obs refresh)
  | recv (st : SchedState) : Step st (recvStep st)

/-- Several scheduler iterations in a row, one observation script entry
per iteration. -/
def run (st : SchedState) (script : List (List TaskObs × Bool)) : SchedState :=
  script.foldl (fun s ob => iteration s ob.1 ob.2) st

/-! ## Device protocol driver (`src/screen_rev_a.rs`) -/

/-- The command opcodes of the wire protocol. -/
inductive Command where
  | hello
  | reset
  | clear
  | toBlack
  | screenOff
  | screenOn
  | setBrightness
  | setOrientation
  | displayBitmap
deriving DecidableEq, Repr

/-- Numeric opcode of each command (the `enum Command` discriminants). -/
def Command.code : Command → Nat
  | .hello => 69
  | .reset => 101
  | .clear => 102
  | .toBlack => 103
  | .screenOff => 108
  | .screenOn => 109
  | .setBrightness => 110
  | .setOrientation => 121
  | .displayBitmap => 197

/-- `cmd!(op)`: parameterless 6-byte command frame. -/
def cmdSimple (opcode : Nat) : List Nat :=
  [0, 0, 0, 0, 0, opcode % 256]

/-- `cmd!(op, param)`: 6-byte command frame with one byte parameter. -/
def cmdParam (opcode param : Nat) : List Nat :=
  [param % 256, 0, 0, 0, 0, opcode % 256]

/-- `cmd!(op, x0, y0, x1, y1)`: 6-byte frame packing two 10-bit
coordinate pairs into bytes 1–5, opcode in byte 6. -/
def cmdCoords (opcode x0 y0 x1 y1 : Nat) : List Nat :=
  [((x0 &&& 0x3ff) >>> 2) % 256,
   (((x0 &&& 0x0003) <<< 6) ||| ((y0 &&& 0x03ff) >>> 4)) % 256,
   (((y0 &&& 0x000f) <<< 4) ||| ((x1 &&& 0x03ff) >>> 6)) % 256,
   (((x1 &&& 0x003f) <<< 2) ||| ((y1 &&& 0x03ff) >>> 8)) % 256,
   (y1 &&& 0x00ff) % 256,
   opcode % 256]

/-- `cmd!(op, o, width, height)`: the 16-byte `SetOrientation` frame:
five zero bytes, the opcode, `100 + orientation`, width and height
big-endian, five zero bytes. -/
def cmdOrientation (opcode o width height : Nat) : List Nat :=
  [0, 0, 0, 0, 0, opcode % 256,
   (100 + o) % 256,
   (width >>> 8) % 256, (width &&& 0xff) % 256,
   (height >>> 8) % 256, (height &&& 0xff) % 256,
   0, 0, 0, 0, 0]

/-- Screen orientations (`enum Orientation` in `lib.rs`). -/
inductive ScreenOrient where
  | portrait
  | landscape
  | reversePortrait
  | reverseLandscape
deriving DecidableEq, Repr

/-- `fn orientation`: wire code of each orientation. -/
def orientCode : ScreenOrient → Nat
  | .portrait => 0
  | .landscape => 2
  | .reversePortrait => 1
  | .reverseLandscape => 3

/-- `const WIDTH`: panel width in portrait orientation. -/
def WIDTH : Nat := 320

/-- `const HEIGHT`: panel height in portrait orientation. -/
def HEIGHT : Nat := 480

/-- `ScreenRevA::screen_size`: reported dimensions by orientation. -/
def screen_size (o : ScreenOrient) : Nat × Nat :=
  match o with
  | .portrait | .reversePortrait => (WIDTH, HEIGHT)
  | .landscape | .reverseLandscape => (HEIGHT, WIDTH)

/-- `const USBMONITOR35`: the 6-byte magic reply of the 3.5-inch
sub-revision. -/
def USBMONITOR35 : List Nat := [0x01, 0x01, 0x01, 0x01, 0x01, 0x01]

/-- The serial transport: bytes still to be read and bytes written so
far. -/
structure Port where
  input : List Nat
  output : List Nat
deriving DecidableEq, Repr

/-- `write(data)`: append to the transport output. -/
def Port.writeBytes (p : Port) (data : List Nat) : Port :=
  { p with output := p.output ++ data }

/-- `read(n)` via `read_exact`: take exactly `n` bytes from the input;
fewer available models the transport timing out (an I/O error). -/
def Port.readExact (p : Port) (n : Nat) : Option (List Nat × Port) :=
  if n ≤ p.input.length then
    some (p.input.take n, { p with input := p.input.drop n })
  else
    none

/-- `struct ScreenRevA`: transport, orientation and the RGB565 staging
framebuffer (a byte list). -/
structure ScreenRevA where
  port : Port
  orientation : ScreenOrient
  fb565_raw : List Nat
deriving DecidableEq, Repr

/-- `ScreenRevA::init`: write the Hello frame, read exactly 6 bytes and
compare with the magic; the state keeps the transport effects, the
second component is the `Res<()>` outcome. -/
def ScreenRevA.init (scr : ScreenRevA) : ScreenRevA × Except String Unit :=
  let scr1 := { scr with port := scr.port.writeBytes (cmdSimple Command.hello.code) }
  match scr1.port.readExact 6 with
  | none => (scr1, .error "io error")
  | some (res, p2) =>
    let scr2 := { scr1 with port := p2 }
    if res = USBMONITOR35 then (scr2, .ok ())
    else (scr2, .error "incompatible screen model")

/-- The two RGB565 bytes of one pixel, in transmission order
`[gggbbbbb][rrrrrggg]` (little-endian 16-bit value), exactly the two
store expressions of `ScreenRevA::downmix`. -/
def pack565 (p : Rgba) : Nat × Nat :=
  ((((p.g &&& 0x1c) <<< 3) ||| (p.b >>> 3)) % 256,
   ((p.r &&& 0xf8) ||| (p.g >>> 5)) % 256)

/-- Modelled from the spec: the expansion of a packed RGB565 pixel back
to 8-bit channels, each 5/6-bit field placed back at the top of its
byte with the lost low bits zero (the round-trip direction the spec
describes; the crate itself has no unpacking function). -/
def expand565 (lo hi : Nat) : Nat × Nat × Nat :=
  (hi &&& 0xf8,
   ((hi &&& 0x07) <<< 5) ||| (((lo >>> 5) &&& 0x07) <<< 2),
   (lo &&& 0x1f) <<< 3)

/-- Column loop of `ScreenRevA::downmix`: read the source pixel, store
its two RGB565 bytes at `dest` and `dest + 1`.  Reads and stores are
bounds-checked (`none` is a Rust panic). -/
def downmixRow (imgBuf : List Rgba) (fb : List Nat) (src dest : Nat) :
    Nat → Option (List Nat)
  | 0 => some fb
  | Nat.succ cnt =>
    match imgBuf.get? src with
    | none => none
    | some p =>
      if dest < fb.length then
        let fb1 := fb.set dest (pack565 p).1
        if dest + 1 < fb1.length then
          downmixRow imgBuf (fb1.set (dest + 1) (pack565 p).2) (src + 1)
            (dest + 2) cnt
        else none
      else none

/-- Row loop of `ScreenRevA::downmix`: one `downmixRow` per rectangle
row, advancing the source offset by `image.width` pixels and the
destination offset by `stride` bytes. -/
def downmixRows (imgW stride : Nat) (imgBuf : List Rgba) (fb : List Nat)
    (ofs888 ofs565 w : Nat) : Nat → Option (List Nat)
  | 0 => some fb
  | Nat.succ cnt =>
    match downmixRow imgBuf fb ofs888 ofs565 w with
    | none => none
    | some fb2 =>
      downmixRows imgW stride imgBuf fb2 (ofs888 + imgW) (ofs565 + stride) w cnt

/-- `ScreenRevA::downmix(image, rect, pos)`: downmix the RGBA region
`rect` of `image` into the RGB565 staging buffer at screen position
`pos`.  Source offsets in pixels, destination offsets in bytes. -/
def ScreenRevA.downmix (scr : ScreenRevA) (image : Image) (rect : Rect)
    (pos : Coord) : Option (List Nat) :=
  let width := (screen_size scr.orientation).1
  downmixRows image.width (width * 2) image.buffer scr.fb565_raw
    (rect.y * image.width + rect.x) (2 * (pos.y * width + pos.x)) rect.w rect.h

/-- Pixel-row transmission loop of `ScreenRevA::display_image`: write
the byte range `[start, e)` of the staging buffer for each row,
advancing both ends by `stride`.  An out-of-range slice is a panic
(`none`). -/
def sendRows (fb : List Nat) (p : Port) (start e stride : Nat) :
    Nat → Option Port
  | 0 => some p
  | Nat.succ cnt =>
    if start ≤ e ∧ e ≤ fb.length then
      sendRows fb (p.writeBytes ((fb.drop start).take (e - start)))
        (start + stride) (e + stride) stride cnt
    else none

/-- `ScreenRevA::display_image(image, crop, pos)`: clip the crop against
the screen area remaining at `pos` (wrapping `usize` subtraction), return
`Ok` at once when the clipped rectangle is empty, otherwise downmix the
region, send the DisplayBitmap command with the inclusive destination
corners, then send each RGB565 row (`2 * r.w` bytes per row).  `none`
models a panic. -/
def ScreenRevA.display_image (scr : ScreenRevA) (image : Image) (crop : Rect)
    (pos : Coord) : Option ScreenRevA :=
  let width := (screen_size scr.orientation).1
  let height := (screen_size scr.orientation).2
  let r := crop.clip (wsub width pos.x) (wsub height pos.y)
  if r.w = 0 ∨ r.h = 0 then
    some scr
  else
    match scr.downmix image r pos with
    | none => none
    | some fb2 =>
      let p1 := scr.port.writeBytes
        (cmdCoords Command.displayBitmap.code pos.x pos.y
          (pos.x + r.w - 1) (pos.y + r.h - 1))
      match sendRows fb2 p1 (pos.y * (2 * width) + 2 * pos.x)
          (pos.y * (2 * width) + 2 * pos.x + 2 * r.w) (2 * width) r.h with
      | none => none
      | some p2 => some { scr with port := p2, fb565_raw := fb2 }

/-! # Theorems -/

theorem wsub_eq_sub {a b : Nat} (hb : b ≤ a) (ha : a < USIZE) :
    wsub a b = a - b := by
  unfold wsub
  have h1 : a + USIZE - b = (a - b) + USIZE := by omega
  rw [h1, Nat.add_mod_right]
  exact Nat.mod_eq_of_lt (by omega)

/-! ## Claim C2: clipping -/

/-- C2, counterexample.  The claim states that `R.clip(W, H)` always has
`x + w ≤ W`; but clipping `R = (30, 10, 50, 50)` against bounds
`(25, 35)` yields `(30, 10, 0, 0)` (the out-of-bounds origin is kept),
whose `x + w = 30 > 25`.  This is the off-screen-x case of the
repository's own `test_rect_clip` test. -/
theorem C2_clip_counterexample :
    ¬ ((Rect.clip ⟨30, 10, 50, 50⟩ 25 35).x
        + (Rect.clip ⟨30, 10, 50, 50⟩ 25 35).w ≤ 25) := by
  decide

/-- C2, amended.  `R.clip(W, H)` always preserves the origin; when the
origin is in bounds (`x < W` and `y < H`) the result satisfies
`x + w ≤ W` and `y + h ≤ H`; when the origin is out of bounds the result
has width and height both `0` (so `x + w ≤ W` can fail, as the origin is
kept). -/
theorem C2_clip_amended (r : Rect) (W H : Nat) :
    ((r.clip W H).x = r.x ∧ (r.clip W H).y = r.y)
    ∧ (r.x < W → r.y < H →
        (r.clip W H).x + (r.clip W H).w ≤ W
        ∧ (r.clip W H).y + (r.clip W H).h ≤ H)
    ∧ (W ≤ r.x ∨ H ≤ r.y → (r.clip W H).w = 0 ∧ (r.clip W H).h = 0) := by
  unfold Rect.clip
  split
  case isTrue h =>
    refine ⟨⟨rfl, rfl⟩, ?_, fun _ => ⟨rfl, rfl⟩⟩
    intro hx hy
    omega
  case isFalse h =>
    refine ⟨⟨rfl, rfl⟩, ?_, ?_⟩
    · intro hx hy
      constructor
      · simp only
        omega
      · simp only
        omega
    · intro hc
      omega

/-- C2 witness: the amended clipping facts at concrete inputs. -/
theorem C2_clip_amended_witness :
    ((Rect.clip ⟨5, 10, 15, 20⟩ 25 35).x
      + (Rect.clip ⟨5, 10, 15, 20⟩ 25 35).w ≤ 25)
    ∧ (Rect.clip ⟨30, 10, 50, 50⟩ 25 35).w = 0 :=
  ⟨((C2_clip_amended ⟨5, 10, 15, 20⟩ 25 35).2.1 (by decide) (by decide)).1,
   ((C2_clip_amended ⟨30, 10, 50, 50⟩ 25 35).2.2 (Or.inl (by decide))).1⟩

/-! ## Claim C4: alpha blend -/

/-- C4.  The per-pixel alpha blend: foreground alpha 0 leaves the
background bit-for-bit unchanged; foreground alpha 255 replaces the
background with the foreground; intermediate alpha computes each channel
by the exact integer fixed-point formula `(bg*(255-a) + fg*a) >> 8`; and
blending foreground `(0x00, 0x80, 0xff, 0x80)` onto background
`(0x40, 0x80, 0xc0)` yields channels `(0x1f or 0x20, 0x7f, 0xde)` —
the code produces `0x1f`. -/
theorem C4_blend_alpha_spec :
    (∀ bg fg : Rgba, fg.a = 0 → blend_alpha bg fg = bg)
    ∧ (∀ bg fg : Rgba, fg.a = 255 → blend_alpha bg fg = fg)
    ∧ (∀ bg fg : Rgba, fg.a ≠ 0 → fg.a ≠ 255 →
        (blend_alpha bg fg).r = (bg.r * (255 - fg.a) + fg.r * fg.a) / 256
        ∧ (blend_alpha bg fg).g = (bg.g * (255 - fg.a) + fg.g * fg.a) / 256
        ∧ (blend_alpha bg fg).b = (bg.b * (255 - fg.a) + fg.b * fg.a) / 256
        ∧ (blend_alpha bg fg).a = bg.a)
    ∧ (((blend_alpha ⟨0x40, 0x80, 0xc0, 0xff⟩ ⟨0x00, 0x80, 0xff, 0x80⟩).r = 0x1f
          ∨ (blend_alpha ⟨0x40, 0x80, 0xc0, 0xff⟩ ⟨0x00, 0x80, 0xff, 0x80⟩).r = 0x20)
        ∧ (blend_alpha ⟨0x40, 0x80, 0xc0, 0xff⟩ ⟨0x00, 0x80, 0xff, 0x80⟩).g = 0x7f
        ∧ (blend_alpha ⟨0x40, 0x80, 0xc0, 0xff⟩ ⟨0x00, 0x80, 0xff, 0x80⟩).b = 0xde) := by
  refine ⟨?_, ?_, ?_, ?_⟩
  · intro bg fg h
    simp [blend_alpha, h]
  · intro bg fg h
    unfold blend_alpha
    split
    · omega
    · simp [h]
  · intro bg fg h0 h255
    simp [blend_alpha, h0, h255]
  · decide

/-- C4 witness: each blend case at concrete pixels. -/
theorem C4_blend_alpha_spec_witness :
    blend_alpha ⟨1, 2, 3, 9⟩ ⟨4, 5, 6, 0⟩ = ⟨1, 2, 3, 9⟩
    ∧ blend_alpha ⟨1, 2, 3, 9⟩ ⟨4, 5, 6, 255⟩ = ⟨4, 5, 6, 255⟩
    ∧ (blend_alpha ⟨0x40, 0x80, 0xc0, 0xff⟩ ⟨0x00, 0x80, 0xff, 0x80⟩).r
        = (0x40 * (255 - 0x80) + 0x00 * 0x80) / 256 :=
  ⟨C4_blend_alpha_spec.1 ⟨1, 2, 3, 9⟩ ⟨4, 5, 6, 0⟩ rfl,
   C4_blend_alpha_spec.2.1 ⟨1, 2, 3, 9⟩ ⟨4, 5, 6, 255⟩ rfl,
   (C4_blend_alpha_spec.2.2.1 ⟨0x40, 0x80, 0xc0, 0xff⟩ ⟨0x00, 0x80, 0xff, 0x80⟩
      (by decide) (by decide)).1⟩

/-! ## Claim C3: clipped image operations -/

theorem clip_bounds (r : Rect) (W H : Nat) :
    ((r.clip W H).w = 0 ∧ (r.clip W H).h = 0)
    ∨ ((r.clip W H).x + (r.clip W H).w ≤ W
        ∧ (r.clip W H).y + (r.clip W H).h ≤ H) := by
  unfold Rect.clip
  split
  · exact Or.inl ⟨rfl, rfl⟩
  · right
    constructor
    · simp only
      omega
    · simp only
      omega

theorem writeSlice_some {dst src : List Rgba} {offset srcOffset w : Nat}
    (h1 : offset + w ≤ dst.length) (h2 : srcOffset + w ≤ src.length) :
    ∃ out, writeSlice dst offset src srcOffset w = some out
      ∧ out.length = dst.length := by
  unfold writeSlice
  rw [if_pos ⟨h1, h2⟩]
  refine ⟨_, rfl, ?_⟩
  simp only [List.length_append, List.length_take, List.length_drop]
  omega

theorem copyRows_isSome (selfW selfH : Nat) (image : Image) (crop : Rect)
    (dest : Coord) (hsrc : image.wf)
    (hcol : crop.x + dest.x + crop.w ≤ selfW)
    (hscol : crop.x + crop.w ≤ image.width) :
    ∀ cnt y buf, buf.length = selfW * selfH →
      dest.y + y + cnt ≤ selfH →
      crop.y + y + cnt ≤ image.height →
      ∃ out, copyRows selfW image crop dest buf y cnt = some out
        ∧ out.length = selfW * selfH := by
  intro cnt
  induction cnt with
  | zero =>
    intro y buf hbuf _ _
    exact ⟨buf, rfl, hbuf⟩
  | succ cnt ih =>
    intro y buf hbuf hrow hsrow
    have hofs : (dest.y + y) * selfW + crop.x + dest.x + crop.w ≤ buf.length := by
      rw [hbuf]
      have h2 : dest.y + y + 1 ≤ selfH := by omega
      calc (dest.y + y) * selfW + crop.x + dest.x + crop.w
          ≤ (dest.y + y) * selfW + selfW := by omega
        _ = (dest.y + y + 1) * selfW := by ring
        _ ≤ selfH * selfW := mul_le_mul_right' h2 selfW
        _ = selfW * selfH := Nat.mul_comm selfH selfW
    have hsofs : (crop.y + y) * image.width + crop.x + crop.w
        ≤ image.buffer.length := by
      rw [hsrc]
      have h2 : crop.y + y + 1 ≤ image.height := by omega
      calc (crop.y + y) * image.width + crop.x + crop.w
          ≤ (crop.y + y) * image.width + image.width := by omega
        _ = (crop.y + y + 1) * image.width := by ring
        _ ≤ image.height * image.width := mul_le_mul_right' h2 image.width
        _ = image.width * image.height := Nat.mul_comm image.height image.width
    obtain ⟨buf2, hw, hlen⟩ := writeSlice_some hofs hsofs
    obtain ⟨out, hrun, hlout⟩ :=
      ih (y + 1) buf2 (by rw [hlen, hbuf]) (by omega) (by omega)
    refine ⟨out, ?_, hlout⟩
    simp only [copyRows]
    rw [hw]
    exact hrun

theorem blendRow_isSome (srcBuf : List Rgba) (offset srcOffset : Nat) :
    ∀ cnt x buf, offset + x + cnt ≤ buf.length →
      srcOffset + x + cnt ≤ srcBuf.length →
      ∃ out, blendRow buf offset srcBuf srcOffset x cnt = some out
        ∧ out.length = buf.length := by
  intro cnt
  induction cnt with
  | zero =>
    intro x buf _ _
    exact ⟨buf, rfl, rfl⟩
  | succ cnt ih =>
    intro x buf h1 h2
    have hs : srcOffset + x < srcBuf.length := by omega
    obtain ⟨fg, hfg⟩ : ∃ fg, srcBuf.get? (srcOffset + x) = some fg := by
      rw [List.get?_eq_get hs]
      exact ⟨_, rfl⟩
    by_cases ha : 0 < fg.a
    · have hb : offset + x < buf.length := by omega
      obtain ⟨bg, hbg⟩ : ∃ bg, buf.get? (offset + x) = some bg := by
        rw [List.get?_eq_get hb]
        exact ⟨_, rfl⟩
      have hlen : (buf.set (offset + x) (blend_alpha bg fg)).length = buf.length :=
        List.length_set buf _ _
      obtain ⟨out, hrun, hlout⟩ :=
        ih (x + 1) (buf.set (offset + x) (blend_alpha bg fg))
          (by rw [hlen]; omega) (by omega)
      refine ⟨out, ?_, by rw [hlout, hlen]⟩
      simp only [blendRow, hfg]
      rw [if_pos ha]
      simp only [hbg]
      exact hrun
    · obtain ⟨out, hrun, hlout⟩ := ih (x + 1) buf (by omega) (by omega)
      refine ⟨out, ?_, hlout⟩
      simp only [blendRow, hfg]
      rw [if_neg ha]
      exact hrun

theorem blendRows_isSome (selfW imgW : Nat) (srcBuf : List Rgba) (w : Nat) :
    ∀ cnt buf offset srcOffset,
      (∀ i, i < cnt → offset + i * selfW + w ≤ buf.length) →
      (∀ i, i < cnt → srcOffset + i * imgW + w ≤ srcBuf.length) →
      ∃ out, blendRows selfW imgW srcBuf buf offset srcOffset w cnt = some out
        ∧ out.length = buf.length := by
  intro cnt
  induction cnt with
  | zero =>
    intro buf offset srcOffset _ _
    exact ⟨buf, rfl, rfl⟩
  | succ cnt ih =>
    intro buf offset srcOffset hdst hsrc
    have h0 : offset + 0 * selfW + w ≤ buf.length := hdst 0 (Nat.succ_pos cnt)
    have h0s : srcOffset + 0 * imgW + w ≤ srcBuf.length := hsrc 0 (Nat.succ_pos cnt)
    obtain ⟨buf2, hrow, hlen⟩ :=
      blendRow_isSome srcBuf offset srcOffset w 0 buf (by omega) (by omega)
    obtain ⟨out, hrun, hlout⟩ := ih buf2 (offset + selfW) (srcOffset + imgW)
      (by
        intro i hi
        rw [hlen]
        have h2 := hdst (i + 1) (by omega)
        rw [Nat.succ_mul] at h2
        set t := i * selfW with ht
        omega)
      (by
        intro i hi
        have h2 := hsrc (i + 1) (by omega)
        rw [Nat.succ_mul] at h2
        set t := i * imgW with ht
        omega)
    refine ⟨out, ?_, by rw [hlout, hlen]⟩
    simp only [blendRows]
    rw [hrow]
    exact hrun

/-- C3, counterexample.  The claim promises no panic for destinations
beyond the destination bounds, but `copy_image`/`blend_image` compute
`self.width - dest.x` before clipping: for a 2×2 source copied into a
3×3 destination at `dest = (4, 2)` the subtraction wraps (release mode)
and the row slice `buffer[10..12]` is out of range for the 9-pixel
buffer — a panic, modelled by `none`.  (In a debug build the subtraction
itself panics.) -/
theorem C3_counterexample :
    (Image.mk_new 3 3).copy_image srcImg2 srcImg2.full ⟨4, 2⟩ = none
    ∧ (Image.mk_new 3 3).blend_image srcImg2 srcImg2.full ⟨4, 2⟩ = none := by
  constructor
  · rfl
  · rfl

/-- C3, amended.  Provided the destination coordinate does not lie
strictly beyond the destination bounds (`dest.x ≤ width` and
`dest.y ≤ height`, so the pre-clip subtractions cannot underflow),
`copy_image` and `blend_image` never panic and never write outside the
destination buffer: every slice and index is in range (all accesses in
the embedding are bounds-checked, so a `some` result means no
out-of-range write), the image dimensions are unchanged and the buffer
keeps its length; out-of-range crops are silently clipped. -/
theorem C3_image_ops_amended (self image : Image) (crop : Rect) (dest : Coord)
    (hself : self.wf) (himg : image.wf)
    (hW : self.width < USIZE) (hH : self.height < USIZE)
    (hx : dest.x ≤ self.width) (hy : dest.y ≤ self.height) :
    (∃ res, self.copy_image image crop dest = some res
      ∧ res.width = self.width ∧ res.height = self.height ∧ res.wf)
    ∧ (∃ res, self.blend_image image crop dest = some res
      ∧ res.width = self.width ∧ res.height = self.height ∧ res.wf) := by
  have hwx : wsub self.width dest.x = self.width - dest.x := wsub_eq_sub hx hW
  have hwy : wsub self.height dest.y = self.height - dest.y := wsub_eq_sub hy hH
  constructor
  · simp only [Image.copy_image, hwx, hwy]
    set crop2 := crop.clip (min image.width (self.width - dest.x))
      (min image.height (self.height - dest.y)) with hcrop2
    have hcb := clip_bounds crop (min image.width (self.width - dest.x))
      (min image.height (self.height - dest.y))
    rw [← hcrop2] at hcb
    rcases hcb with hz | hb
    · rw [hz.2]
      exact ⟨_, rfl, rfl, rfl, hself⟩
    · obtain ⟨out, hrun, hlen⟩ := copyRows_isSome self.width self.height image
        crop2 dest himg (by omega) (by omega) crop2.h 0 self.buffer hself
        (by omega) (by omega)
      rw [hrun]
      exact ⟨_, rfl, rfl, rfl, hlen⟩
  · simp only [Image.blend_image, hwx, hwy]
    set crop2 := crop.clip (min image.width (self.width - dest.x))
      (min image.height (self.height - dest.y)) with hcrop2
    have hcb := clip_bounds crop (min image.width (self.width - dest.x))
      (min image.height (self.height - dest.y))
    rw [← hcrop2] at hcb
    rcases hcb with hz | hb
    · rw [hz.2]
      exact ⟨_, rfl, rfl, rfl, hself⟩
    ·
      obtain ⟨out, hrun, hlen⟩ := blendRows_isSome self.width image.width
        image.buffer crop2.w crop2.h self.buffer
        (dest.y * self.width + dest.x) (crop2.y * image.width + crop2.x)
        (by
          intro i hi
          rw [hself]
          have hwle : dest.x + crop2.w ≤ self.width := by omega
          have hhle : dest.y + i + 1 ≤ self.height := by omega
          calc dest.y * self.width + dest.x + i * self.width + crop2.w
              = (dest.y + i) * self.width + (dest.x + crop2.w) := by ring
            _ ≤ (dest.y + i) * self.width + self.width := by omega
            _ = (dest.y + i + 1) * self.width := by ring
            _ ≤ self.height * self.width := mul_le_mul_right' hhle self.width
            _ = self.width * self.height := Nat.mul_comm self.height self.width)
        (by
          intro i hi
          rw [himg]
          have hwle : crop2.x + crop2.w ≤ image.width := by omega
          have hhle : crop2.y + i + 1 ≤ image.height := by omega
          calc crop2.y * image.width + crop2.x + i * image.width + crop2.w
              = (crop2.y + i) * image.width + (crop2.x + crop2.w) := by ring
            _ ≤ (crop2.y + i) * image.width + image.width := by omega
            _ = (crop2.y + i + 1) * image.width := by ring
            _ ≤ image.height * image.width := mul_le_mul_right' hhle image.width
            _ = image.width * image.height := Nat.mul_comm image.height image.width)
      rw [hrun]
      exact ⟨_, rfl, rfl, rfl, hlen.trans hself⟩

/-- C3 witness: a fully in-bounds copy and blend succeed. -/
theorem C3_image_ops_amended_witness :
    (∃ res, (Image.mk_new 3 3).copy_image srcImg2 srcImg2.full ⟨1, 1⟩ = some res
      ∧ res.width = (Image.mk_new 3 3).width
      ∧ res.height = (Image.mk_new 3 3).height ∧ res.wf)
    ∧ (∃ res, (Image.mk_new 3 3).blend_image srcImg2 srcImg2.full ⟨1, 1⟩ = some res
      ∧ res.width = (Image.mk_new 3 3).width
      ∧ res.height = (Image.mk_new 3 3).height ∧ res.wf) :=
  C3_image_ops_amended (Image.mk_new 3 3) srcImg2 srcImg2.full ⟨1, 1⟩
    rfl rfl (by decide) (by decide) (by decide) (by decide)

/-! ## Scheduler lemmas -/

theorem lookupId_updateIfPresent_self (m : MeterMap) (id : Nat) (x : Int) :
    ∀ v, lookupId m id = some v →
      lookupId (updateIfPresent m id x) id = some x := by
  induction m with
  | nil =>
    intro v h
    cases h
  | cons kv t ih =>
    intro v h
    by_cases hk : kv.1 = id
    · subst hk
      simp [lookupId, updateIfPresent]
    · simp only [lookupId, if_neg hk] at h
      simp only [updateIfPresent, if_neg hk, lookupId]
      exact ih v h

theorem lookupId_updateIfPresent_ne (m : MeterMap) (id : Nat) (x : Int)
    (k : Nat) (hk : k ≠ id) :
    lookupId (updateIfPresent m id x) k = lookupId m k := by
  induction m with
  | nil => rfl
  | cons kv t ih =>
    by_cases h1 : kv.1 = id
    · subst h1
      have h2 : ¬ (kv.1 = k) := fun he => hk he.symm
      simpa [updateIfPresent, lookupId, h2] using ih
    · simp only [updateIfPresent, if_neg h1, lookupId]
      by_cases h2 : kv.1 = k
      · rw [if_pos h2, if_pos h2]
      · rw [if_neg h2, if_neg h2]
        exact ih

theorem updateIfPresent_absent (m : MeterMap) (id : Nat) (x : Int) :
    lookupId m id = none → updateIfPresent m id x = m := by
  induction m with
  | nil => intro _; rfl
  | cons kv t ih =>
    intro h
    simp only [lookupId] at h
    by_cases h1 : kv.1 = id
    · rw [if_pos h1] at h
      cases h
    · rw [if_neg h1] at h
      simp only [updateIfPresent, if_neg h1]
      rw [ih h]

theorem keys_cons (kv : Nat × Int) (t : MeterMap) :
    keys (kv :: t) = kv.1 :: keys t := rfl

theorem keys_updateIfPresent (m : MeterMap) (id : Nat) (x : Int) :
    keys (updateIfPresent m id x) = keys m := by
  induction m with
  | nil => rfl
  | cons kv t ih =>
    by_cases h1 : kv.1 = id
    · simp only [updateIfPresent, if_pos h1, keys_cons, ih]
    · simp only [updateIfPresent, if_neg h1, keys_cons, ih]

theorem keys_runTask (m : MeterMap) (t : TaskObs) :
    keys (runTask m t) = keys m := by
  unfold runTask
  split
  · exact keys_updateIfPresent m t.id _
  · rfl

theorem keys_collect (obs : List TaskObs) :
    ∀ m, keys (collect m obs) = keys m := by
  induction obs with
  | nil => intro m; rfl
  | cons t rest ih =>
    intro m
    show keys (collect (runTask m t) rest) = keys m
    rw [ih (runTask m t), keys_runTask]

theorem keys_iteration (st : SchedState) (obs : List TaskObs) (refresh : Bool) :
    keys (iteration st obs refresh).meterMap = keys st.meterMap := by
  unfold iteration trySend
  cases refresh
  · simpa using keys_collect obs st.meterMap
  · by_cases hc : st.chan.length < 1
    · simp only [if_pos hc, if_true]
      simpa using keys_collect obs st.meterMap
    · simp only [if_neg hc, if_true]
      simpa using keys_collect obs st.meterMap

theorem iteration_chan_le (st : SchedState) (obs : List TaskObs)
    (refresh : Bool) (h : st.chan.length ≤ 1) :
    (iteration st obs refresh).chan.length ≤ 1 := by
  unfold iteration trySend
  cases refresh
  · simpa using h
  · by_cases hc : st.chan.length < 1
    · simp only [if_pos hc, if_true]
      simp only [List.length_append, List.length_cons, List.length_nil]
      omega
    · simp only [if_neg hc, if_true]
      simpa using h

/-! ## Claim C1: measurement errors -/

/-- C1, counterexample.  The claim states the prior snapshot value is
retained when `measure()` fails, but the scheduler stores `0.0` on a
measurement error: a snapshot holding value `5` under id `7` ends up
holding `0`, not `5`, after a failing measurement of meter `7`. -/
theorem C1_counterexample :
    runTask [(7, 5)] ⟨7, true, .error "sensor read failed"⟩ = [(7, 0)]
    ∧ lookupId (runTask [(7, 5)] ⟨7, true, .error "sensor read failed"⟩) 7
        ≠ some 5 := by
  constructor
  · rfl
  · decide

/-- C1, amended.  When a task's timer has expired and its `measure()`
returns an error, the scheduler logs the error and stores `0.0` under
the meter's id (overwriting the prior value when the key is present);
entries under other keys are untouched, a missing key leaves the
snapshot unchanged, and the loop is never aborted (the iteration is a
total function). -/
theorem C1_measure_error_amended (m : MeterMap) (t : TaskObs) (e : String)
    (hexp : t.expired = true) (herr : t.result = .error e) :
    (∀ v, lookupId m t.id = some v → lookupId (runTask m t) t.id = some 0)
    ∧ (∀ k, k ≠ t.id → lookupId (runTask m t) k = lookupId m k)
    ∧ (lookupId m t.id = none → runTask m t = m) := by
  have hrt : runTask m t = updateIfPresent m t.id 0 := by
    unfold runTask
    rw [hexp, herr]
    simp
  rw [hrt]
  refine ⟨?_, ?_, ?_⟩
  · exact lookupId_updateIfPresent_self m t.id 0
  · intro k hk
    exact lookupId_updateIfPresent_ne m t.id 0 k hk
  · exact updateIfPresent_absent m t.id 0

/-- C1 witness: the amended error behaviour at concrete snapshots. -/
theorem C1_measure_error_amended_witness :
    lookupId (runTask [(7, 5)] ⟨7, true, Except.error "boom"⟩) 7 = some 0
    ∧ runTask [(3, 4)] ⟨7, true, Except.error "boom"⟩ = [(3, 4)] :=
  ⟨(C1_measure_error_amended [(7, 5)] ⟨7, true, .error "boom"⟩ "boom" rfl rfl).1
      5 (by decide),
   (C1_measure_error_amended [(3, 4)] ⟨7, true, .error "boom"⟩ "boom" rfl rfl).2.2
      (by decide)⟩

/-! ## Claim C9: key-set invariance -/

/-- C9.  The key set of the snapshot is invariant under every scheduler
loop iteration (any script of iterations); a successful measurement
preserves the key set, touches no other key, and overwrites the value of
an already-present key; a measurement for an id not in the snapshot
leaves the snapshot unchanged. -/
theorem C9_keyset_invariant :
    (∀ st script, keys (run st script).meterMap = keys st.meterMap)
    ∧ (∀ (m : MeterMap) (t : TaskObs) (v : Int),
        t.expired = true → t.result = .ok v →
        keys (runTask m t) = keys m
        ∧ (∀ k, k ≠ t.id → lookupId (runTask m t) k = lookupId m k)
        ∧ (∀ w, lookupId m t.id = some w → lookupId (runTask m t) t.id = some v))
    ∧ (∀ (m : MeterMap) (t : TaskObs),
        lookupId m t.id = none → runTask m t = m) := by
  refine ⟨?_, ?_, ?_⟩
  · intro st script
    induction script generalizing st with
    | nil => rfl
    | cons ob rest ih =>
      show keys (run (iteration st ob.1 ob.2) rest).meterMap = keys st.meterMap
      rw [ih (iteration st ob.1 ob.2), keys_iteration]
  · intro m t v hexp hok
    have hrt : runTask m t = updateIfPresent m t.id v := by
      unfold runTask
      rw [hexp, hok]
      simp
    rw [hrt]
    refine ⟨keys_updateIfPresent m t.id v, ?_, ?_⟩
    · intro k hk
      exact lookupId_updateIfPresent_ne m t.id v k hk
    · intro w hw
      exact lookupId_updateIfPresent_self m t.id v w hw
  · intro m t h
    unfold runTask
    split
    · exact updateIfPresent_absent m t.id _ h
    · rfl

/-- C9 witness: key-set facts at a concrete snapshot and script. -/
theorem C9_keyset_invariant_witness :
    keys (run ⟨[(1, 0)], []⟩ [([⟨1, true, Except.ok 3⟩], true)]).meterMap
      = keys ([(1, 0)] : MeterMap)
    ∧ lookupId (runTask [(1, 0)] ⟨1, true, Except.ok 3⟩) 1 = some 3
    ∧ runTask [(1, 0)] ⟨2, true, Except.ok 3⟩ = [(1, 0)] :=
  ⟨C9_keyset_invariant.1 ⟨[(1, 0)], []⟩ [([⟨1, true, .ok 3⟩], true)],
   (C9_keyset_invariant.2.1 [(1, 0)] ⟨1, true, .ok 3⟩ 3 rfl rfl).2.2 0 (by decide),
   C9_keyset_invariant.2.2 [(1, 0)] ⟨2, true, .ok 3⟩ (by decide)⟩

/-! ## Claim C8: single-slot non-blocking publish -/

/-- C8.  On an iteration whose refresh period elapsed the scheduler
publishes a copy of the current snapshot with a non-blocking send on the
capacity-1 channel: an empty slot receives exactly the collected
snapshot; a full slot drops the publish (the channel is unchanged) and
the scheduler's own snapshot is unaffected by the failed publish (it is
the collected snapshot in every branch, publish or not); and from any
state with at most one pending snapshot, every state reachable by
scheduler iterations and renderer receives still has at most one
pending snapshot. -/
theorem C8_publish_nonblocking :
    (∀ st obs refresh, (iteration st obs refresh).meterMap = collect st.meterMap obs)
    ∧ (∀ st obs, st.chan = [] →
        (iteration st obs true).chan = [collect st.meterMap obs])
    ∧ (∀ st obs, st.chan ≠ [] → (iteration st obs true).chan = st.chan)
    ∧ (∀ s t, Relation.ReflTransGen Step s t →
        s.chan.length ≤ 1 → t.chan.length ≤ 1) := by
  refine ⟨?_, ?_, ?_, ?_⟩
  · intro st obs refresh
    unfold iteration trySend
    cases refresh
    · simp
    · by_cases hc : st.chan.length < 1
      · simp [hc]
      · simp [hc]
  · intro st obs hst
    unfold iteration trySend
    rw [hst]
    simp
  · intro st obs hst
    unfold iteration trySend
    have hc : ¬ st.chan.length < 1 := by
      cases hch : st.chan with
      | nil => exact absurd hch hst
      | cons a l => simp
    simp [hc]
  · intro s t h
    induction h with
    | refl => exact id
    | tail h1 hstep ih =>
      intro hs
      have hb := ih hs
      cases hstep with
      | sched obs refresh => exact iteration_chan_le _ obs refresh hb
      | recv =>
        unfold recvStep
        simp only [List.length_drop]
        omega

/-- C8 witness: publish into an empty slot, drop on a full slot, and the
one-pending-snapshot bound along a concrete reachable step. -/
theorem C8_publish_nonblocking_witness :
    (iteration ⟨[(1, 2)], []⟩ [] true).chan = [collect [(1, 2)] []]
    ∧ (iteration ⟨[(1, 2)], [[(9, 9)]]⟩ [] true).chan = [[(9, 9)]]
    ∧ (iteration ⟨[(1, 2)], []⟩ [] true).chan.length ≤ 1 :=
  ⟨C8_publish_nonblocking.2.1 ⟨[(1, 2)], []⟩ [] rfl,
   C8_publish_nonblocking.2.2.1 ⟨[(1, 2)], [[(9, 9)]]⟩ [] (by decide),
   C8_publish_nonblocking.2.2.2 ⟨[(1, 2)], []⟩ (iteration ⟨[(1, 2)], []⟩ [] true)
     (Relation.ReflTransGen.single (Step.sched ⟨[(1, 2)], []⟩ [] true))
     (by decide)⟩

/-! ## Bit-arithmetic helpers

Masks `2 ^ n - 1` and shifts are rewritten to `%` and `/` through the
standard library; the remaining `u8`-ranged masks and disjoint bitwise
ors are settled by finite case checks. -/

theorem and_3 (x : Nat) : x &&& 3 = x % 4 := by
  have h := Nat.and_pow_two_sub_one_eq_mod x 2
  norm_num at h
  exact h

theorem and_7 (x : Nat) : x &&& 7 = x % 8 := by
  have h := Nat.and_pow_two_sub_one_eq_mod x 3
  norm_num at h
  exact h

theorem and_f (x : Nat) : x &&& 0xf = x % 16 := by
  have h := Nat.and_pow_two_sub_one_eq_mod x 4
  norm_num at h
  exact h

theorem and_1f (x : Nat) : x &&& 0x1f = x % 32 := by
  have h := Nat.and_pow_two_sub_one_eq_mod x 5
  norm_num at h
  exact h

theorem and_3f (x : Nat) : x &&& 0x3f = x % 64 := by
  have h := Nat.and_pow_two_sub_one_eq_mod x 6
  norm_num at h
  exact h

theorem and_ff (x : Nat) : x &&& 0xff = x % 256 := by
  have h := Nat.and_pow_two_sub_one_eq_mod x 8
  norm_num at h
  exact h

theorem and_3ff (x : Nat) : x &&& 0x3ff = x % 1024 := by
  have h := Nat.and_pow_two_sub_one_eq_mod x 10
  norm_num at h
  exact h

theorem and_1c : ∀ x, x < 256 → x &&& 0x1c = x % 32 / 4 * 4 := by decide

theorem and_f8 : ∀ x, x < 256 → x &&& 0xf8 = x / 8 * 8 := by decide

theorem and_fc : ∀ x, x < 256 → x &&& 0xfc = x / 4 * 4 := by decide

theorem shr2 (x : Nat) : x >>> 2 = x / 4 := by
  have h := Nat.shiftRight_eq_div_pow x 2
  norm_num at h
  exact h

theorem shr3 (x : Nat) : x >>> 3 = x / 8 := by
  have h := Nat.shiftRight_eq_div_pow x 3
  norm_num at h
  exact h

theorem shr4 (x : Nat) : x >>> 4 = x / 16 := by
  have h := Nat.shiftRight_eq_div_pow x 4
  norm_num at h
  exact h

theorem shr5 (x : Nat) : x >>> 5 = x / 32 := by
  have h := Nat.shiftRight_eq_div_pow x 5
  norm_num at h
  exact h

theorem shr6 (x : Nat) : x >>> 6 = x / 64 := by
  have h := Nat.shiftRight_eq_div_pow x 6
  norm_num at h
  exact h

theorem shr8 (x : Nat) : x >>> 8 = x / 256 := by
  have h := Nat.shiftRight_eq_div_pow x 8
  norm_num at h
  exact h

theorem shl2 (x : Nat) : x <<< 2 = x * 4 := by
  have h := Nat.shiftLeft_eq x 2
  norm_num at h
  exact h

theorem shl3 (x : Nat) : x <<< 3 = x * 8 := by
  have h := Nat.shiftLeft_eq x 3
  norm_num at h
  exact h

theorem shl4 (x : Nat) : x <<< 4 = x * 16 := by
  have h := Nat.shiftLeft_eq x 4
  norm_num at h
  exact h

theorem shl5 (x : Nat) : x <<< 5 = x * 32 := by
  have h := Nat.shiftLeft_eq x 5
  norm_num at h
  exact h

theorem shl6 (x : Nat) : x <<< 6 = x * 64 := by
  have h := Nat.shiftLeft_eq x 6
  norm_num at h
  exact h

theorem lor4 : ∀ a, a < 64 → ∀ b, b < 4 → a * 4 ||| b = a * 4 + b := by decide

theorem lor8 : ∀ a, a < 32 → ∀ b, b < 8 → a * 8 ||| b = a * 8 + b := by decide

theorem lor16 : ∀ a, a < 16 → ∀ b, b < 16 → a * 16 ||| b = a * 16 + b := by decide

theorem lor32 : ∀ a, a < 8 → ∀ b, b < 32 → a * 32 ||| b = a * 32 + b := by decide

theorem lor64 : ∀ a, a < 4 → ∀ b, b < 64 → a * 64 ||| b = a * 64 + b := by decide

/-! ## Claim C7: protocol handshake -/

/-- C7.  With a 6-byte reply queued on the transport, `init()` writes
the Hello command frame, reads exactly the 6 reply bytes, succeeds
exactly when the reply is the `USBMONITOR35` magic, and returns the
incompatible-device error for every other 6-byte reply. -/
theorem C7_init_handshake (scr : ScreenRevA) (hlen : scr.port.input.length = 6) :
    (scr.init.2 = .ok () ↔ scr.port.input = USBMONITOR35)
    ∧ (scr.port.input ≠ USBMONITOR35 →
        scr.init.2 = .error "incompatible screen model")
    ∧ scr.init.1.port.output = scr.port.output ++ cmdSimple Command.hello.code
    ∧ scr.init.1.port.input = [] := by
  unfold ScreenRevA.init
  simp only [Port.writeBytes, Port.readExact]
  rw [show (6 : Nat) = scr.port.input.length from hlen.symm]
  rw [if_pos (Nat.le_refl _)]
  simp only [List.take_length, List.drop_length]
  by_cases hm : scr.port.input = USBMONITOR35
  · simp [hm]
  · simp [hm]

/-- C7 witness: the magic reply is accepted, a different 6-byte reply is
rejected with the incompatible-device error. -/
theorem C7_init_handshake_witness :
    ((ScreenRevA.init ⟨⟨USBMONITOR35, []⟩, .portrait, []⟩).2 = .ok ()
      ↔ (⟨⟨USBMONITOR35, []⟩, .portrait, []⟩ : ScreenRevA).port.input = USBMONITOR35)
    ∧ (ScreenRevA.init ⟨⟨[0, 0, 0, 0, 0, 2], []⟩, .portrait, []⟩).2
        = .error "incompatible screen model" :=
  ⟨(C7_init_handshake ⟨⟨USBMONITOR35, []⟩, .portrait, []⟩ (by decide)).1,
   (C7_init_handshake ⟨⟨[0, 0, 0, 0, 0, 2], []⟩, .portrait, []⟩ (by decide)).2.1
     (by decide)⟩

/-! ## Claim C10: empty clip sends nothing -/

/-- C10.  Whenever clipping the crop rectangle against the screen area
remaining at `pos` yields zero width or zero height, `display_image`
returns `Ok` immediately with the screen state untouched: no
DisplayBitmap command and no pixel bytes are written to the transport
(the whole state, its transport output included, is unchanged). -/
theorem C10_empty_clip_no_output (scr : ScreenRevA) (image : Image)
    (crop : Rect) (pos : Coord)
    (h : (crop.clip (wsub (screen_size scr.orientation).1 pos.x)
            (wsub (screen_size scr.orientation).2 pos.y)).w = 0
        ∨ (crop.clip (wsub (screen_size scr.orientation).1 pos.x)
            (wsub (screen_size scr.orientation).2 pos.y)).h = 0) :
    scr.display_image image crop pos = some scr := by
  unfold ScreenRevA.display_image
  rw [if_pos h]

/-- C10 witness: a zero-width crop produces `Ok` and no output. -/
theorem C10_empty_clip_no_output_witness :
    ScreenRevA.display_image ⟨⟨[], []⟩, .portrait, []⟩ (Image.mk_new 2 2)
      ⟨0, 0, 0, 0⟩ ⟨0, 0⟩ = some ⟨⟨[], []⟩, .portrait, []⟩ :=
  C10_empty_clip_no_output ⟨⟨[], []⟩, .portrait, []⟩ (Image.mk_new 2 2)
    ⟨0, 0, 0, 0⟩ ⟨0, 0⟩ (Or.inl (by decide))

/-! ## Claim C6: RGB565 downmix -/

theorem pack565_fst (p : Rgba) (hg : p.g < 256) (hb : p.b < 256) :
    (pack565 p).1 = p.g % 32 / 4 * 32 + p.b / 8 := by
  show ((((p.g &&& 0x1c) <<< 3) ||| (p.b >>> 3)) % 256) = _
  rw [and_1c p.g hg, shr3, shl3]
  have e : p.g % 32 / 4 * 4 * 8 = p.g % 32 / 4 * 32 := by ring
  rw [e, lor32 _ (by omega) _ (by omega)]
  exact Nat.mod_eq_of_lt (by omega)

theorem pack565_snd (p : Rgba) (hr : p.r < 256) (hg : p.g < 256) :
    (pack565 p).2 = p.r / 8 * 8 + p.g / 32 := by
  show (((p.r &&& 0xf8) ||| (p.g >>> 5)) % 256) = _
  rw [and_f8 p.r hr, shr5, lor8 _ (by omega) _ (by omega)]
  exact Nat.mod_eq_of_lt (by omega)

theorem expand565_r (lo hi : Nat) (hhi : hi < 256) :
    (expand565 lo hi).1 = hi / 8 * 8 := by
  show hi &&& 0xf8 = _
  exact and_f8 hi hhi

theorem expand565_g (lo hi : Nat) :
    (expand565 lo hi).2.1 = hi % 8 * 32 + lo / 32 % 8 * 4 := by
  show ((hi &&& 0x07) <<< 5) ||| (((lo >>> 5) &&& 0x07) <<< 2) = _
  rw [and_7, shr5, and_7, shl5, shl2, lor32 _ (by omega) _ (by omega)]

theorem expand565_b (lo hi : Nat) :
    (expand565 lo hi).2.2 = lo % 32 * 8 := by
  show (lo &&& 0x1f) <<< 3 = _
  rw [and_1f, shl3]

/-- C6.  The RGB565 downmix packs the top 5 bits of red, top 6 bits of
green and top 5 bits of blue as the byte pair `[gggbbbbb][rrrrrggg]`
(first byte `g-mid ++ b-high`, second byte `r-high ++ g-high`, the
little-endian layout of the 16-bit value), and expanding the packed bits
back to 8-bit channels reproduces exactly `r &&& 0xf8`, `g &&& 0xfc`,
`b &&& 0xf8`; packing `(0xff, 0x00, 0xff)` gives bytes `(0x1f, 0xf8)`
which expand to `(0xf8, 0x00, 0xf8)` — only the documented low bits are
lost. -/
theorem C6_rgb565_roundtrip (p : Rgba)
    (hr : p.r < 256) (hg : p.g < 256) (hb : p.b < 256) :
    ((pack565 p).1 = p.g % 32 / 4 * 32 + p.b / 8
      ∧ (pack565 p).2 = p.r / 8 * 8 + p.g / 32)
    ∧ expand565 (pack565 p).1 (pack565 p).2
        = (p.r &&& 0xf8, p.g &&& 0xfc, p.b &&& 0xf8)
    ∧ pack565 ⟨0xff, 0x00, 0xff, 0xff⟩ = (0x1f, 0xf8)
    ∧ expand565 0x1f 0xf8 = (0xf8, 0x00, 0xf8) := by
  have h1 := pack565_fst p hg hb
  have h2 := pack565_snd p hr hg
  refine ⟨⟨h1, h2⟩, ?_, by decide, by decide⟩
  have hhi : (pack565 p).2 < 256 := by
    rw [h2]
    omega
  refine Prod.ext ?_ (Prod.ext ?_ ?_)
  · rw [expand565_r _ _ hhi, h2, and_f8 p.r hr]
    simp only
    omega
  · rw [expand565_g, h1, h2, and_fc p.g hg]
    simp only
    omega
  · rw [expand565_b, h1, and_f8 p.b hb]
    simp only
    omega

/-- C6 witness: the round trip at the pixel named by the claim. -/
theorem C6_rgb565_roundtrip_witness :
    expand565 (pack565 ⟨0xff, 0x00, 0xff, 0xff⟩).1
        (pack565 ⟨0xff, 0x00, 0xff, 0xff⟩).2
      = (0xff &&& 0xf8, 0x00 &&& 0xfc, 0xff &&& 0xf8) :=
  (C6_rgb565_roundtrip ⟨0xff, 0x00, 0xff, 0xff⟩
    (by decide) (by decide) (by decide)).2.1

/-! ## Claim C5: command frames and coordinate packing -/

/-- C5, counterexample.  The claim states every device command is a
fixed 6-byte frame, but the SetOrientation frame written by
`set_orientation` (and by `clear`, which must set portrait first) is 16
bytes long — the repository's own `test_clear` expects those 16 bytes on
the wire. -/
theorem C5_counterexample :
    (cmdOrientation Command.setOrientation.code 0 320 480).length = 16 := by
  decide

/-- C5, amended.  Every command except SetOrientation is a fixed 6-byte
frame whose sixth byte is the opcode; the SetOrientation frame is 16
bytes with the opcode still in byte 6.  Bytes 1–5 of a coordinate frame
pack the two 10-bit coordinate pairs big-endian across byte boundaries:
read as a 40-bit big-endian integer they equal
`x0 * 2^30 + y0 * 2^20 + x1 * 2^10 + y1`; and encoding the
display-bitmap rectangle `(1, 1, 4, 1)` produces exactly
`[0x00, 0x40, 0x10, 0x10, 0x01]` followed by opcode 197. -/
theorem C5_command_frames_amended :
    (∀ op, (cmdSimple op).length = 6 ∧ (cmdSimple op).getLast? = some (op % 256))
    ∧ (∀ op p, (cmdParam op p).length = 6
        ∧ (cmdParam op p).getLast? = some (op % 256))
    ∧ (∀ op x0 y0 x1 y1, (cmdCoords op x0 y0 x1 y1).length = 6
        ∧ (cmdCoords op x0 y0 x1 y1).getLast? = some (op % 256))
    ∧ (∀ op o w h, (cmdOrientation op o w h).length = 16
        ∧ (cmdOrientation op o w h).getD 5 0 = op % 256)
    ∧ (∀ op x0 y0 x1 y1, x0 < 1024 → y0 < 1024 → x1 < 1024 → y1 < 1024 →
        (cmdCoords op x0 y0 x1 y1).getD 0 0 * 2 ^ 32
          + (cmdCoords op x0 y0 x1 y1).getD 1 0 * 2 ^ 24
          + (cmdCoords op x0 y0 x1 y1).getD 2 0 * 2 ^ 16
          + (cmdCoords op x0 y0 x1 y1).getD 3 0 * 2 ^ 8
          + (cmdCoords op x0 y0 x1 y1).getD 4 0
          = x0 * 2 ^ 30 + y0 * 2 ^ 20 + x1 * 2 ^ 10 + y1)
    ∧ cmdCoords Command.displayBitmap.code 1 1 4 1
        = [0x00, 0x40, 0x10, 0x10, 0x01, 197] := by
  refine ⟨fun op => ⟨rfl, rfl⟩, fun op p => ⟨rfl, rfl⟩,
    fun op x0 y0 x1 y1 => ⟨rfl, rfl⟩, fun op o w h => ⟨rfl, rfl⟩,
    ?_, by decide⟩
  intro op x0 y0 x1 y1 hx0 hy0 hx1 hy1
  have b0 : (cmdCoords op x0 y0 x1 y1).getD 0 0 = x0 / 4 := by
    show ((x0 &&& 0x3ff) >>> 2) % 256 = _
    rw [and_3ff, shr2, Nat.mod_eq_of_lt hx0]
    exact Nat.mod_eq_of_lt (by omega)
  have b1 : (cmdCoords op x0 y0 x1 y1).getD 1 0 = x0 % 4 * 64 + y0 / 16 := by
    show ((((x0 &&& 0x0003) <<< 6) ||| ((y0 &&& 0x03ff) >>> 4)) % 256) = _
    rw [and_3, and_3ff, shl6, shr4, Nat.mod_eq_of_lt hy0,
      lor64 _ (by omega) _ (by omega)]
    exact Nat.mod_eq_of_lt (by omega)
  have b2 : (cmdCoords op x0 y0 x1 y1).getD 2 0 = y0 % 16 * 16 + x1 / 64 := by
    show ((((y0 &&& 0x000f) <<< 4) ||| ((x1 &&& 0x03ff) >>> 6)) % 256) = _
    rw [and_f, and_3ff, shl4, shr6, Nat.mod_eq_of_lt hx1,
      lor16 _ (by omega) _ (by omega)]
    exact Nat.mod_eq_of_lt (by omega)
  have b3 : (cmdCoords op x0 y0 x1 y1).getD 3 0 = x1 % 64 * 4 + y1 / 256 := by
    show ((((x1 &&& 0x003f) <<< 2) ||| ((y1 &&& 0x03ff) >>> 8)) % 256) = _
    rw [and_3f, and_3ff, shl2, shr8, Nat.mod_eq_of_lt hy1,
      lor4 _ (by omega) _ (by omega)]
    exact Nat.mod_eq_of_lt (by omega)
  have b4 : (cmdCoords op x0 y0 x1 y1).getD 4 0 = y1 % 256 := by
    show ((y1 &&& 0x00ff) % 256) = _
    rw [and_ff]
    omega
  rw [b0, b1, b2, b3, b4]
  have e32 : (2 : Nat) ^ 32 = 4294967296 := by norm_num
  have e24 : (2 : Nat) ^ 24 = 16777216 := by norm_num
  have e16 : (2 : Nat) ^ 16 = 65536 := by norm_num
  have e8 : (2 : Nat) ^ 8 = 256 := by norm_num
  have e30 : (2 : Nat) ^ 30 = 1073741824 := by norm_num
  have e20 : (2 : Nat) ^ 20 = 1048576 := by norm_num
  have e10 : (2 : Nat) ^ 10 = 1024 := by norm_num
  rw [e32, e24, e16, e8, e30, e20, e10]
  omega

/-- C5 witness: the frame facts at the claim's concrete rectangle. -/
theorem C5_command_frames_amended_witness :
    (cmdCoords Command.displayBitmap.code 1 1 4 1).getD 0 0 * 2 ^ 32
      + (cmdCoords Command.displayBitmap.code 1 1 4 1).getD 1 0 * 2 ^ 24
      + (cmdCoords Command.displayBitmap.code 1 1 4 1).getD 2 0 * 2 ^ 16
      + (cmdCoords Command.displayBitmap.code 1 1 4 1).getD 3 0 * 2 ^ 8
      + (cmdCoords Command.displayBitmap.code 1 1 4 1).getD 4 0
      = 1 * 2 ^ 30 + 1 * 2 ^ 20 + 4 * 2 ^ 10 + 1 :=
  C5_command_frames_amended.2.2.2.2.1 Command.displayBitmap.code 1 1 4 1
    (by decide) (by decide) (by decide) (by decide)

end TuringScreen
